import Mathlib

set_option maxHeartbeats 1000000

/-!
Shallow embedding of `src/midi_to_sc.py` (the single source file of the
repository).  The MIDI-parsing collaborator (`mido.MidiFile`) is abstracted
away: a parsed file is a list of tracks, each track an ordered list of
messages carrying the fields the code reads (`type`, `note`, `velocity`,
`time`).

Python list aliasing matters for faithfulness: `bars.append(current_bar_notes)`
at the end-of-track flush stores a *reference* and does not reset
`current_bar_notes`, so a later track keeps appending notes into the bar
object already stored in `bars`, and may store the same object again.  All
references to one live list object are consecutive in `bars` (a boundary
trigger freezes the object and rebinds the variable).  The segmenter state
therefore carries, besides `prev_time` and the current bar's value, the
number of references to the *live* current-bar object already stored in
`bars` (`pending`); the frozen prefix of `bars` is `frozen`.
-/

/-- A MIDI message as the code reads it: fields `type`, `note`, `velocity`,
`time` of a `mido` message. -/
structure Msg where
  type : String
  note : Int
  velocity : Int
  time : Int
deriving DecidableEq

/-- Embeds the inner function `midi_note_to_name` (lines 17-33): a dictionary
lookup over the keys 60..91 with default `"Unknown"`. -/
def midi_note_to_name (n : Int) : String :=
  if n = 60 then "C4" else if n = 61 then "C#4" else if n = 62 then "D4"
  else if n = 63 then "D#4" else if n = 64 then "E4" else if n = 65 then "F4"
  else if n = 66 then "F#4" else if n = 67 then "G4" else if n = 68 then "G#4"
  else if n = 69 then "A4" else if n = 70 then "A#4" else if n = 71 then "B4"
  else if n = 72 then "C5" else if n = 73 then "C#5" else if n = 74 then "D5"
  else if n = 75 then "D#5" else if n = 76 then "E5" else if n = 77 then "F5"
  else if n = 78 then "F#5" else if n = 79 then "G5" else if n = 80 then "G#5"
  else if n = 81 then "A5" else if n = 82 then "A#5" else if n = 83 then "B5"
  else if n = 84 then "C6" else if n = 85 then "C#6" else if n = 86 then "D6"
  else if n = 87 then "D#6" else if n = 88 then "E6" else if n = 89 then "F6"
  else if n = 90 then "F#6" else if n = 91 then "G6"
  else "Unknown"

/-- Embeds the inner function `convert_ticks_to_duration` (lines 35-49).
Python's `int(ticks / 10)` truncates toward zero; the branch is only
reached for `10 ≤ ticks ≤ 500`, where truncation, flooring and Euclidean
division all agree, so `Int` division is faithful. -/
def convert_ticks_to_duration (ticks : Int) : Int :=
  if ticks < 10 then 79
  else if ticks > 500 then 512
  else ticks / 10

/-- Segmenter state: `prev` is `prev_time`; `cur` is the value of the live
`current_bar_notes` list object; `frozen` is the prefix of `bars` whose
entries can no longer be mutated; `pending` is how many references to the
live `current_bar_notes` object sit in `bars` after `frozen` (entries added
by the end-of-track flush, which does not rebind the variable). -/
structure SegState where
  prev : Int
  cur : List String
  frozen : List (List String)
  pending : Nat
deriving DecidableEq

/-- State at line 53-55: `prev_time = 0`, empty current bar, empty `bars`. -/
def freshState : SegState := { prev := 0, cur := [], frozen := [], pending := 0 }

/-- One iteration of the inner message loop (lines 59-72).  On a bar-boundary
trigger (`msg.time >= ticks_per_bar`, line 68) the live object — already
referenced `pending` times in `bars` plus the `append` on line 69 — is frozen
at its final value and `current_bar_notes` is rebound to a fresh list. -/
def processMsg (ticks_per_bar : Int) (s : SegState) (m : Msg) : SegState :=
  if m.type = "note_on" ∧ m.velocity > 0 then
    let note_name := midi_note_to_name m.note
    let duration := convert_ticks_to_duration (m.time - s.prev)
    let note_duration := "<" ++ note_name ++ ">,<" ++ toString duration ++ ">"
    let cur := s.cur ++ [note_duration]
    if m.time ≥ ticks_per_bar then
      { prev := m.time, cur := [],
        frozen := s.frozen ++ List.replicate (s.pending + 1) cur, pending := 0 }
    else
      { prev := m.time, cur := cur, frozen := s.frozen, pending := s.pending }
  else
    { s with prev := m.time }

/-- End-of-track flush (lines 75-76): a non-empty `current_bar_notes` is
appended to `bars` by reference, without rebinding the variable. -/
def endTrack (s : SegState) : SegState :=
  if s.cur = [] then s else { s with pending := s.pending + 1 }

/-- Processing one whole track from a given state (lines 59-76). -/
def segTrack (ticks_per_bar : Int) (s : SegState) (t : List Msg) : SegState :=
  endTrack (t.foldl (processMsg ticks_per_bar) s)

/-- Reading off the final value of the Python list `bars` from a state: the
frozen entries followed by `pending` references to the live object. -/
def SegState.bars (s : SegState) : List (List String) :=
  s.frozen ++ List.replicate s.pending s.cur

/-- The value of `bars` after the track loop (lines 53-76): the tracks are
processed sequentially, the state threading through (nothing is reset
between tracks). -/
def barsOf (ticks_per_bar : Int) (tracks : List (List Msg)) : List (List String) :=
  (tracks.foldl (segTrack ticks_per_bar) freshState).bars

/-- Segmenting a single track from fresh state, as the spec's §4.3 describes
a track in isolation. -/
def trackBarsFresh (ticks_per_bar : Int) (t : List Msg) : List (List String) :=
  (segTrack ticks_per_bar freshState t).bars

/-- The ordinal word list on line 87/89. -/
def ordinals : List String :=
  ["first", "second", "third", "fourth", "fifth", "sixth", "seventh"]

/-- The formatter loop (lines 80-89) from bar index `i` on.  The first
component is `none` when the ordinal lookup `[...][i]` is out of range
(Python `IndexError`); the second component is the final value of the
caller's `lyrics` list (in Python the pop on line 86 happens before the
failing index lookup on line 87, so on a nonempty lyric list the head is
consumed even on the failing iteration). -/
def formatLines : Nat → List (List String) → List String → Option String × List String
  | _, [], lyrics => (some "", lyrics)
  | i, bar :: rest, lyrics =>
    let line := String.intercalate " | " bar
    match lyrics with
    | [] =>
      match ordinals[i]? with
      | none => (none, [])
      | some ord =>
        let r := formatLines (i + 1) rest []
        (r.fst.map (fun s => "The " ++ ord ++ " line: " ++ line ++ ",\n" ++ s), r.snd)
    | ly :: lys =>
      match ordinals[i]? with
      | none => (none, lys)
      | some ord =>
        let r := formatLines (i + 1) rest lys
        (r.fst.map (fun s => "The " ++ ord ++ " line: " ++ ly ++ ", " ++ line ++ ",\n" ++ s), r.snd)

/-- Embeds `midi_to_sc_format` (lines 3-91), with the parsed MIDI file in
place of the file path.  Returns the result string (`none` for the
`IndexError` on more than 7 bars) paired with the final value of the
caller's `lyrics` list. -/
def midi_to_sc_format (tracks : List (List Msg)) (lyrics : List String)
    (ticks_per_bar : Int) : Option String × List String :=
  let bars := barsOf ticks_per_bar tracks
  let r := formatLines 0 bars lyrics
  (r.fst.map (fun s => "Total " ++ toString bars.length ++ " lines.\n" ++ s), r.snd)

/-- A note-on message of positive velocity, as the counterexamples use. -/
def mkOn (note time : Int) : Msg := { type := "note_on", note := note, velocity := 1, time := time }

/-- Claim C3, counterexample: for the negative delta -380 (the one arising in
the spec's own end-to-end scenario) the quantizer returns 79, not
floor(-380 / 10) = -38: negative inputs satisfy `ticks < 10` and take the
first branch. -/
theorem C3_counterexample :
    convert_ticks_to_duration (-380) = 79 ∧
    convert_ticks_to_duration (-380) ≠ (-380 : Int) / 10 := by
  decide

/-- Claim C3 as amended: for every negative integer tick delta the Duration
Quantizer returns 79 (the `ticks < 10` branch captures all negative inputs);
it never returns floor(delta / 10) for a negative delta, and does not
error. -/
theorem C3_negative_delta (d : Int) (h : d < 0) : convert_ticks_to_duration d = 79 := by
  simp only [convert_ticks_to_duration]
  rw [if_pos (by omega : d < 10)]

/-- Witness for C3_negative_delta at d = -380. -/
theorem C3_negative_delta_witness : convert_ticks_to_duration (-380) = 79 :=
  C3_negative_delta (-380) (by decide)

/-- Claim C4: on non-negative deltas the quantizer returns 79 below 10, 512
above 500, and floor(d / 10) ∈ [1, 50] in between; with the six concrete
values the spec lists. -/
theorem C4_quantizer (d : Int) (h : 0 ≤ d) :
    (d < 10 → convert_ticks_to_duration d = 79) ∧
    (500 < d → convert_ticks_to_duration d = 512) ∧
    (10 ≤ d → d ≤ 500 →
      convert_ticks_to_duration d = d / 10 ∧ 1 ≤ d / 10 ∧ d / 10 ≤ 50) ∧
    convert_ticks_to_duration 5 = 79 ∧ convert_ticks_to_duration 9 = 79 ∧
    convert_ticks_to_duration 10 = 1 ∧ convert_ticks_to_duration 500 = 50 ∧
    convert_ticks_to_duration 501 = 512 ∧ convert_ticks_to_duration 10000 = 512 := by
  refine ⟨fun h1 => ?_, fun h2 => ?_, fun h3 h4 => ?_,
    by decide, by decide, by decide, by decide, by decide, by decide⟩
  · simp only [convert_ticks_to_duration]
    rw [if_pos h1]
  · simp only [convert_ticks_to_duration]
    rw [if_neg (by omega), if_pos (by omega)]
  · simp only [convert_ticks_to_duration]
    rw [if_neg (by omega), if_neg (by omega)]
    exact ⟨rfl, by omega, by omega⟩

/-- Witness for C4_quantizer at d = 15. -/
theorem C4_quantizer_witness :
    ((15 : Int) < 10 → convert_ticks_to_duration 15 = 79) ∧
    ((500 : Int) < 15 → convert_ticks_to_duration 15 = 512) ∧
    ((10 : Int) ≤ 15 → (15 : Int) ≤ 500 →
      convert_ticks_to_duration 15 = 15 / 10 ∧ 1 ≤ (15 : Int) / 10 ∧ (15 : Int) / 10 ≤ 50) ∧
    convert_ticks_to_duration 5 = 79 ∧ convert_ticks_to_duration 9 = 79 ∧
    convert_ticks_to_duration 10 = 1 ∧ convert_ticks_to_duration 500 = 50 ∧
    convert_ticks_to_duration 501 = 512 ∧ convert_ticks_to_duration 10000 = 512 :=
  C4_quantizer 15 (by decide)

/-- The 32 names of the dictionary on lines 27-32, in key order 60..91. -/
def noteNamesList : List String :=
  ["C4", "C#4", "D4", "D#4", "E4", "F4", "F#4", "G4",
   "G#4", "A4", "A#4", "B4", "C5", "C#5", "D5", "D#5",
   "E5", "F5", "F#5", "G5", "G#5", "A5", "A#5", "B5",
   "C6", "C#6", "D6", "D#6", "E6", "F6", "F#6", "G6"]

lemma noteNamesList_nodup : noteNamesList.Nodup := by decide

lemma midi_note_to_name_eq_getD (n : Int) (h1 : 60 ≤ n) (h2 : n ≤ 91) :
    midi_note_to_name n = noteNamesList.getD (n - 60).toNat "Unknown" := by
  interval_cases n <;> decide

lemma midi_note_to_name_outside (n : Int) (h : n < 60 ∨ 91 < n) :
    midi_note_to_name n = "Unknown" := by
  rcases h with h | h <;>
  · simp only [midi_note_to_name]
    rw [if_neg (by omega : ¬ n = 60), if_neg (by omega : ¬ n = 61), if_neg (by omega : ¬ n = 62), if_neg (by omega : ¬ n = 63), if_neg (by omega : ¬ n = 64), if_neg (by omega : ¬ n = 65), if_neg (by omega : ¬ n = 66), if_neg (by omega : ¬ n = 67), if_neg (by omega : ¬ n = 68), if_neg (by omega : ¬ n = 69), if_neg (by omega : ¬ n = 70), if_neg (by omega : ¬ n = 71), if_neg (by omega : ¬ n = 72), if_neg (by omega : ¬ n = 73), if_neg (by omega : ¬ n = 74), if_neg (by omega : ¬ n = 75), if_neg (by omega : ¬ n = 76), if_neg (by omega : ¬ n = 77), if_neg (by omega : ¬ n = 78), if_neg (by omega : ¬ n = 79), if_neg (by omega : ¬ n = 80), if_neg (by omega : ¬ n = 81), if_neg (by omega : ¬ n = 82), if_neg (by omega : ¬ n = 83), if_neg (by omega : ¬ n = 84), if_neg (by omega : ¬ n = 85), if_neg (by omega : ¬ n = 86), if_neg (by omega : ¬ n = 87), if_neg (by omega : ¬ n = 88), if_neg (by omega : ¬ n = 89), if_neg (by omega : ¬ n = 90), if_neg (by omega : ¬ n = 91)]

lemma midi_note_to_name_ne_unknown (n : Int) (h1 : 60 ≤ n) (h2 : n ≤ 91) :
    midi_note_to_name n ≠ "Unknown" := by
  interval_cases n <;> decide

/-- Claim C5: the Note Namer maps every integer in [60, 91] to a
non-"Unknown" name, injectively on that range, and maps every integer
outside [60, 91] to the literal string "Unknown". -/
theorem C5_note_namer (n : Int) :
    (60 ≤ n → n ≤ 91 →
      midi_note_to_name n ≠ "Unknown" ∧
      ∀ m : Int, 60 ≤ m → m ≤ 91 → m ≠ n →
        midi_note_to_name m ≠ midi_note_to_name n) ∧
    ((n < 60 ∨ 91 < n) → midi_note_to_name n = "Unknown") := by
  have hlen : noteNamesList.length = 32 := rfl
  refine ⟨fun h1 h2 => ⟨midi_note_to_name_ne_unknown n h1 h2, fun m hm1 hm2 hmn => ?_⟩,
    midi_note_to_name_outside n⟩
  have hm : (m - 60).toNat < noteNamesList.length := by omega
  have hn : (n - 60).toNat < noteNamesList.length := by omega
  rw [midi_note_to_name_eq_getD m hm1 hm2, midi_note_to_name_eq_getD n h1 h2,
    List.getD_eq_getElem _ _ hm, List.getD_eq_getElem _ _ hn]
  intro hEq
  have := (noteNamesList_nodup.getElem_inj_iff).mp hEq
  omega

/-- Witness for C5_note_namer: in-range distinctness for 60 and 61, and the
out-of-range sentinel at 95. -/
theorem C5_note_namer_witness :
    midi_note_to_name 60 ≠ "Unknown" ∧
    midi_note_to_name 61 ≠ midi_note_to_name 60 ∧
    midi_note_to_name 95 = "Unknown" :=
  ⟨((C5_note_namer 60).1 (by decide) (by decide)).1,
   ((C5_note_namer 60).1 (by decide) (by decide)).2 61 (by decide) (by decide) (by decide),
   (C5_note_namer 95).2 (by decide)⟩

/-- Claim C6: the end-to-end scenario of spec §8 — one track, note-on events
at time fields [0, 480, 100] for notes [60, 64, 67], lyrics ["la la"],
ticks_per_bar = 480 — produces exactly the two-line output the spec shows,
and drains the lyric list. -/
theorem C6_end_to_end :
    midi_to_sc_format [[mkOn 60 0, mkOn 64 480, mkOn 67 100]] ["la la"] 480 =
      (some "Total 2 lines.\nThe first line: la la, <C4>,<79> | <E4>,<48>,\nThe second line: <G4>,<79>,\n",
       []) := by
  decide

lemma foldl_processMsg_split (tpb : Int) (msgs : List Msg) : ∀ (p : Int) (c : List String)
    (F : List (List String)) (k : Nat),
    msgs.foldl (processMsg tpb) ⟨p, c, F, k⟩ =
      ⟨(msgs.foldl (processMsg tpb) ⟨p, c, [], k⟩).prev,
       (msgs.foldl (processMsg tpb) ⟨p, c, [], k⟩).cur,
       F ++ (msgs.foldl (processMsg tpb) ⟨p, c, [], k⟩).frozen,
       (msgs.foldl (processMsg tpb) ⟨p, c, [], k⟩).pending⟩ := by
  induction msgs with
  | nil => intro p c F k; simp
  | cons m ms ih =>
    intro p c F k
    rw [List.foldl_cons, List.foldl_cons]
    by_cases h1 : m.type = "note_on" ∧ m.velocity > 0 <;>
    by_cases h2 : m.time ≥ tpb <;>
    simp only [processMsg, h1, h2, if_true, if_false, ite_true, ite_false, if_pos, if_neg,
      not_false_iff] <;>
    (conv_lhs => rw [ih]) <;> (conv_rhs => rw [ih]) <;>
    simp [List.append_assoc]

lemma segTrack_split (tpb : Int) (t : List Msg) (p : Int) (c : List String)
    (F : List (List String)) (k : Nat) :
    segTrack tpb ⟨p, c, F, k⟩ t =
      ⟨(segTrack tpb ⟨p, c, [], k⟩ t).prev,
       (segTrack tpb ⟨p, c, [], k⟩ t).cur,
       F ++ (segTrack tpb ⟨p, c, [], k⟩ t).frozen,
       (segTrack tpb ⟨p, c, [], k⟩ t).pending⟩ := by
  simp only [segTrack]
  rw [foldl_processMsg_split]
  by_cases h : (t.foldl (processMsg tpb) ⟨p, c, [], k⟩).cur = [] <;>
  simp [endTrack, h]

lemma foldl_segTrack_split (tpb : Int) (tracks : List (List Msg)) : ∀ (p : Int)
    (c : List String) (F : List (List String)) (k : Nat),
    tracks.foldl (segTrack tpb) ⟨p, c, F, k⟩ =
      ⟨(tracks.foldl (segTrack tpb) ⟨p, c, [], k⟩).prev,
       (tracks.foldl (segTrack tpb) ⟨p, c, [], k⟩).cur,
       F ++ (tracks.foldl (segTrack tpb) ⟨p, c, [], k⟩).frozen,
       (tracks.foldl (segTrack tpb) ⟨p, c, [], k⟩).pending⟩ := by
  induction tracks with
  | nil => intro p c F k; simp
  | cons t ts ih =>
    intro p c F k
    rw [List.foldl_cons, List.foldl_cons]
    rw [segTrack_split tpb t p c F k]
    (conv_lhs => rw [ih])
    (conv_rhs => rw [ih])
    simp [List.append_assoc]

/-- A non-note message (note-off), used to set `prev_time` at a track end. -/
def offMsg (time : Int) : Msg := { type := "note_off", note := 0, velocity := 0, time := time }

/-- Claim C1, counterexample: two one-note tracks.  Because neither
`prev_time` nor `current_bar_notes` is reset between tracks and the
end-of-track flush appends the live list without clearing it, the second
track's note is appended into the bar already emitted for the first track
and the shared object is emitted again, giving two identical two-note bars
instead of two one-note bars. -/
theorem C1_counterexample :
    barsOf 480 [[mkOn 60 0], [mkOn 64 0]] =
      [["<C4>,<79>", "<E4>,<79>"], ["<C4>,<79>", "<E4>,<79>"]] ∧
    ([[mkOn 60 0], [mkOn 64 0]].map (trackBarsFresh 480)).flatten =
      [["<C4>,<79>"], ["<E4>,<79>"]] ∧
    barsOf 480 [[mkOn 60 0], [mkOn 64 0]] ≠
      ([[mkOn 60 0], [mkOn 64 0]].map (trackBarsFresh 480)).flatten := by
  decide

/-- Claim C1 as amended: segmenter state is NOT reset between tracks, so
the claimed equality fails in general; it does hold whenever every
non-final track returns the segmenter to the fresh configuration
(previousEventTime 0, empty current bar, no pending unflushed bar
reference) — a sufficient condition under which the bars equal the
concatenation, in track order, of the independent fresh-state
segmentations. -/
theorem C1_concat (tpb : Int) (tracks : List (List Msg))
    (h : ∀ t ∈ tracks.dropLast,
      (segTrack tpb freshState t).prev = 0 ∧ (segTrack tpb freshState t).cur = [] ∧
      (segTrack tpb freshState t).pending = 0) :
    barsOf tpb tracks = (tracks.map (trackBarsFresh tpb)).flatten := by
  induction tracks with
  | nil => rfl
  | cons t rest ih =>
    cases rest with
    | nil =>
      simp [barsOf, trackBarsFresh, List.flatten]
    | cons r2 rs =>
      obtain ⟨hp, hc, hk⟩ := h t (by simp [List.dropLast_cons₂])
      have hrest : ∀ x ∈ (r2 :: rs).dropLast,
          (segTrack tpb freshState x).prev = 0 ∧ (segTrack tpb freshState x).cur = [] ∧
          (segTrack tpb freshState x).pending = 0 := by
        intro x hx
        exact h x (by simp [List.dropLast_cons₂, hx])
      have hA : segTrack tpb freshState t = ⟨0, [], (segTrack tpb freshState t).frozen, 0⟩ := by
        cases hAeq : segTrack tpb freshState t
        simp_all
      have hTB : trackBarsFresh tpb t = (segTrack tpb freshState t).frozen := by
        simp [trackBarsFresh, SegState.bars, hk]
      have ihr := ih hrest
      simp only [barsOf, freshState, SegState.bars] at ihr
      simp only [barsOf]
      rw [List.foldl_cons, hA, foldl_segTrack_split]
      simp only [SegState.bars, List.map_cons, List.flatten]
      rw [hTB, List.append_assoc, ihr, List.map_cons, List.flatten_cons]

/-- Witness for C1_concat: the first track closes its bar with a boundary
trigger and ends with a time-0 non-note event, so the second track starts
from fresh state and the bars concatenate. -/
theorem C1_concat_witness :
    barsOf 480 [[mkOn 60 480, offMsg 0], [mkOn 64 0]] =
      ([[mkOn 60 480, offMsg 0], [mkOn 64 0]].map (trackBarsFresh 480)).flatten :=
  C1_concat 480 [[mkOn 60 480, offMsg 0], [mkOn 64 0]] (by decide)

/-- The retention predicate of line 60: a note-on message with positive
velocity. -/
def isNoteOnMsg (m : Msg) : Bool := decide (m.type = "note_on" ∧ m.velocity > 0)

/-- Number of note-on events with velocity > 0 in the whole input. -/
def countNoteOns (tracks : List (List Msg)) : Nat := tracks.flatten.countP isNoteOnMsg

lemma processMsg_pending (tpb : Int) (s : SegState) (m : Msg) (hs : s.pending = 0) :
    (processMsg tpb s m).pending = 0 := by
  by_cases h1 : m.type = "note_on" ∧ m.velocity > 0 <;>
  by_cases h2 : m.time ≥ tpb <;>
  simp [processMsg, h1, h2, hs]

lemma processMsg_count (tpb : Int) (s : SegState) (m : Msg) (hs : s.pending = 0) :
    ((processMsg tpb s m).frozen.map List.length).sum + (processMsg tpb s m).cur.length =
      (s.frozen.map List.length).sum + s.cur.length + (if isNoteOnMsg m then 1 else 0) := by
  by_cases h1 : m.type = "note_on" ∧ m.velocity > 0 <;>
  by_cases h2 : m.time ≥ tpb <;>
  simp [processMsg, isNoteOnMsg, h1, h2, hs] <;>
  omega

lemma foldl_processMsg_count (tpb : Int) (msgs : List Msg) : ∀ s : SegState, s.pending = 0 →
    (msgs.foldl (processMsg tpb) s).pending = 0 ∧
    ((msgs.foldl (processMsg tpb) s).frozen.map List.length).sum +
        (msgs.foldl (processMsg tpb) s).cur.length =
      (s.frozen.map List.length).sum + s.cur.length + msgs.countP isNoteOnMsg := by
  induction msgs with
  | nil => intro s hs; simp [hs]
  | cons m ms ih =>
    intro s hs
    rw [List.foldl_cons]
    obtain ⟨hpend, hsum⟩ := ih (processMsg tpb s m) (processMsg_pending tpb s m hs)
    refine ⟨hpend, ?_⟩
    rw [hsum, processMsg_count tpb s m hs, List.countP_cons]
    by_cases hm : isNoteOnMsg m <;> simp [hm] <;> omega

/-- Claim C2, counterexample: two one-note tracks give 2 note-on events but
4 NoteTokens across the returned bars (2 bars, well under 8): the aliased
current bar is extended by the second track and emitted twice. -/
theorem C2_counterexample :
    (barsOf 480 [[mkOn 61 0], [mkOn 65 0]]).length ≤ 7 ∧
    ((barsOf 480 [[mkOn 61 0], [mkOn 65 0]]).map List.length).sum = 4 ∧
    countNoteOns [[mkOn 61 0], [mkOn 65 0]] = 2 := by
  decide

/-- Claim C2 as amended: for every single-track input (producing at most 7
bars) the sum of NoteTokens over the returned bars equals the number of
note-on events with velocity > 0. -/
theorem C2_single_track (tpb : Int) (t : List Msg)
    (h7 : (barsOf tpb [t]).length ≤ 7) :
    ((barsOf tpb [t]).map List.length).sum = countNoteOns [t] := by
  obtain ⟨hpend, hsum⟩ := foldl_processMsg_count tpb t freshState rfl
  simp only [barsOf, List.foldl_cons, List.foldl_nil, segTrack, countNoteOns,
    List.flatten, List.append_nil, freshState] at hsum hpend ⊢
  by_cases hc : (t.foldl (processMsg tpb) ⟨0, [], [], 0⟩).cur = [] <;>
  simp only [endTrack, hc, if_true, if_false, ite_true, ite_false, SegState.bars] <;>
  simp [hc, hpend, List.replicate] at hsum ⊢ <;>
  omega

/-- One rendered line (line 87 with a lyric, line 89 without), for bar index
`k`, spelled with the k-th entry of the ordinal list. -/
def lineFor (k : Nat) (bar : List String) : Option String → String
  | some ly => "The " ++ ordinals.getD k "" ++ " line: " ++ ly ++ ", " ++
      String.intercalate " | " bar ++ ",\n"
  | none => "The " ++ ordinals.getD k "" ++ " line: " ++
      String.intercalate " | " bar ++ ",\n"

/-- Index-based description of the loop body: line j carries lyric j exactly
when the lyric list reaches that far. -/
def renderedLines (bars : List (List String)) (lyrics : List String) : List String :=
  (List.range bars.length).map (fun j =>
    lineFor j (bars.getD j [])
      (if j < lyrics.length then some (lyrics.getD j "") else none))

/-- Concatenation of rendered lines, in order. -/
def strConcat (l : List String) : String := l.foldr (fun a b => a ++ b) ""

lemma strConcat_cons (a : String) (l : List String) :
    strConcat (a :: l) = a ++ strConcat l := rfl

lemma ordinals_getElem (i : Nat) (h : i ≤ 6) :
    ordinals[i]? = some (ordinals.getD i "") := by
  interval_cases i <;> rfl

lemma ordinals_past_end (i : Nat) (h : 7 ≤ i) : ordinals[i]? = none := by
  apply List.getElem?_eq_none
  simp only [ordinals, List.length_cons, List.length_nil]
  omega

lemma formatLines_none_iff (bars : List (List String)) : ∀ (i : Nat) (lyrics : List String),
    (formatLines i bars lyrics).fst = none ↔ (bars ≠ [] ∧ 7 < i + bars.length) := by
  induction bars with
  | nil => intro i lyrics; simp [formatLines]
  | cons b rest ih =>
    intro i lyrics
    by_cases hi : i ≤ 6
    · cases lyrics with
      | nil =>
        simp only [formatLines, ordinals_getElem i hi, Option.map_eq_none', ih (i + 1) []]
        constructor
        · rintro ⟨-, hlt⟩
          exact ⟨by simp, by simp at hlt ⊢; omega⟩
        · rintro ⟨-, hlt⟩
          refine ⟨List.ne_nil_of_length_pos ?_, ?_⟩ <;> simp at hlt ⊢ <;> omega
      | cons ly lys =>
        simp only [formatLines, ordinals_getElem i hi, Option.map_eq_none', ih (i + 1) lys]
        constructor
        · rintro ⟨-, hlt⟩
          exact ⟨by simp, by simp at hlt ⊢; omega⟩
        · rintro ⟨-, hlt⟩
          refine ⟨List.ne_nil_of_length_pos ?_, ?_⟩ <;> simp at hlt ⊢ <;> omega
    · have h7 : ordinals[i]? = none := ordinals_past_end i (by omega)
      cases lyrics <;>
      · simp only [formatLines, h7]
        simp
        omega

lemma formatLines_eq (bars : List (List String)) : ∀ (i : Nat) (lyrics : List String),
    i + bars.length ≤ 7 →
    formatLines i bars lyrics =
      (some (strConcat ((List.range bars.length).map (fun j =>
        lineFor (i + j) (bars.getD j [])
          (if j < lyrics.length then some (lyrics.getD j "") else none)))),
       lyrics.drop bars.length) := by
  induction bars with
  | nil => intro i lyrics h; simp [formatLines, strConcat]
  | cons b rest ih =>
    intro i lyrics h
    have hi : i ≤ 6 := by simp at h; omega
    have hshift : ∀ j : Nat, i + (j + 1) = (i + 1) + j := fun j => by omega
    cases lyrics with
    | nil =>
      rw [show formatLines i (b :: rest) [] =
        (match ordinals[i]? with
          | none => (none, [])
          | some ord =>
            let r := formatLines (i + 1) rest []
            (r.fst.map (fun s => "The " ++ ord ++ " line: " ++
              String.intercalate " | " b ++ ",\n" ++ s), r.snd)) from rfl]
      rw [ordinals_getElem i hi, ih (i + 1) [] (by simp at h ⊢; omega)]
      simp only [Option.map_some, List.length_cons, List.range_succ_eq_map, List.map_cons,
        List.map_map, strConcat_cons, List.drop_nil]
      refine congrArg₂ Prod.mk (congrArg some (congrArg₂ (· ++ ·) rfl ?_)) rfl
      refine congrArg strConcat (List.map_congr_left fun j hj => ?_)
      simp [Function.comp, hshift j, List.getD_cons_succ]
    | cons ly lys =>
      rw [show formatLines i (b :: rest) (ly :: lys) =
        (match ordinals[i]? with
          | none => (none, lys)
          | some ord =>
            let r := formatLines (i + 1) rest lys
            (r.fst.map (fun s => "The " ++ ord ++ " line: " ++ ly ++ ", " ++
              String.intercalate " | " b ++ ",\n" ++ s), r.snd)) from rfl]
      rw [ordinals_getElem i hi, ih (i + 1) lys (by simp at h ⊢; omega)]
      simp only [Option.map_some, List.length_cons, List.range_succ_eq_map, List.map_cons,
        List.map_map, strConcat_cons, List.drop_succ_cons]
      refine congrArg₂ Prod.mk (congrArg some ?_) rfl
      rw [if_pos (Nat.succ_pos lys.length)]
      simp only [List.getD_cons_zero, Nat.add_zero, lineFor]
      refine congrArg₂ (· ++ ·) rfl ?_
      refine congrArg strConcat (List.map_congr_left fun j hj => ?_)
      simp [Function.comp, hshift j, List.getD_cons_succ, Nat.add_lt_add_iff_right]

/-- Claim C7: the formatter fails with the ordinal index-out-of-range error
exactly when more than 7 bars are produced; with at most 7 bars it completes
and line j is rendered with the j-th entry of the 7-word ordinal list. -/
theorem C7_ordinal_failure (tracks : List (List Msg)) (lyrics : List String) (tpb : Int) :
    ((midi_to_sc_format tracks lyrics tpb).fst = none ↔
      7 < (barsOf tpb tracks).length) ∧
    ((barsOf tpb tracks).length ≤ 7 →
      (midi_to_sc_format tracks lyrics tpb).fst =
        some ("Total " ++ toString (barsOf tpb tracks).length ++ " lines.\n" ++
          strConcat (renderedLines (barsOf tpb tracks) lyrics))) := by
  constructor
  · simp only [midi_to_sc_format, Option.map_eq_none']
    rw [formatLines_none_iff]
    constructor
    · rintro ⟨-, hlt⟩
      omega
    · intro hlt
      exact ⟨List.ne_nil_of_length_pos (by omega), by omega⟩
  · intro h7
    simp only [midi_to_sc_format]
    rw [formatLines_eq _ 0 lyrics (by omega)]
    simp only [Option.map_some', renderedLines, Nat.zero_add]

/-- Witness for C7_ordinal_failure: a one-bar input formats successfully. -/
theorem C7_ordinal_failure_witness :
    (midi_to_sc_format [[mkOn 60 0]] [] 480).fst =
      some ("Total " ++ toString (barsOf 480 [[mkOn 60 0]]).length ++ " lines.\n" ++
        strConcat (renderedLines (barsOf 480 [[mkOn 60 0]]) [])) :=
  (C7_ordinal_failure [[mkOn 60 0]] [] 480).2 (by decide)

/-- Claim C8: with fewer lyrics than bars (and a completing call, i.e. at
most 7 bars) the first len(lyrics) lines carry the lyrics front-to-back and
the remaining lines carry no lyric segment; and whenever the lyric list has
at most as many entries as bars, it is empty after the call. -/
theorem C8_lyric_consumption (tracks : List (List Msg)) (lyrics : List String) (tpb : Int)
    (h7 : (barsOf tpb tracks).length ≤ 7) :
    (lyrics.length < (barsOf tpb tracks).length →
      (midi_to_sc_format tracks lyrics tpb).fst =
        some ("Total " ++ toString (barsOf tpb tracks).length ++ " lines.\n" ++
          strConcat ((List.range (barsOf tpb tracks).length).map (fun j =>
            if j < lyrics.length then
              lineFor j ((barsOf tpb tracks).getD j []) (some (lyrics.getD j ""))
            else
              lineFor j ((barsOf tpb tracks).getD j []) none)))) ∧
    (lyrics.length ≤ (barsOf tpb tracks).length →
      (midi_to_sc_format tracks lyrics tpb).snd = []) := by
  constructor
  · intro hlt
    simp only [midi_to_sc_format]
    rw [formatLines_eq _ 0 lyrics (by omega)]
    simp only [Option.map_some', Nat.zero_add]
    refine congrArg some (congrArg₂ (· ++ ·) rfl
      (congrArg strConcat (List.map_congr_left fun j hj => ?_)))
    rw [apply_ite (lineFor j ((barsOf tpb tracks).getD j []))]
  · intro hle
    simp only [midi_to_sc_format]
    rw [formatLines_eq _ 0 lyrics (by omega)]
    simpa using List.drop_eq_nil_of_le hle

/-- Witness for C8_lyric_consumption: two bars, one lyric — the first line
carries the lyric, the second does not, and the list is drained. -/
theorem C8_lyric_consumption_witness :
    (midi_to_sc_format [[mkOn 60 0, mkOn 64 480, mkOn 67 100]] ["x"] 480).fst =
      some "Total 2 lines.\nThe first line: x, <C4>,<79> | <E4>,<48>,\nThe second line: <G4>,<79>,\n" ∧
    (midi_to_sc_format [[mkOn 60 0, mkOn 64 480, mkOn 67 100]] ["x"] 480).snd = [] := by
  have h := C8_lyric_consumption [[mkOn 60 0, mkOn 64 480, mkOn 67 100]] ["x"] 480 (by decide)
  exact ⟨(h.1 (by decide)).trans (by decide), h.2 (by decide)⟩

/-- Claim C9: with strictly more lyrics than bars (and a completing call),
exactly the first N lyrics are consumed and the list afterwards is the
original suffix from index N on, order unchanged. -/
theorem C9_lyric_suffix (tracks : List (List Msg)) (lyrics : List String) (tpb : Int)
    (h1 : (barsOf tpb tracks).length < lyrics.length)
    (h7 : (barsOf tpb tracks).length ≤ 7) :
    (midi_to_sc_format tracks lyrics tpb).snd =
      lyrics.drop (barsOf tpb tracks).length := by
  simp only [midi_to_sc_format]
  rw [formatLines_eq _ 0 lyrics (by omega)]

/-- Witness for C9_lyric_suffix: one bar, two lyrics — the second lyric
remains. -/
theorem C9_lyric_suffix_witness :
    (midi_to_sc_format [[mkOn 60 0]] ["a", "b"] 480).snd =
      (["a", "b"] : List String).drop (barsOf 480 [[mkOn 60 0]]).length :=
  C9_lyric_suffix [[mkOn 60 0]] ["a", "b"] 480 (by decide) (by decide)

lemma foldl_processMsg_no_noteon (tpb : Int) (msgs : List Msg) : ∀ s : SegState,
    (∀ m ∈ msgs, isNoteOnMsg m = false) →
    (msgs.foldl (processMsg tpb) s).cur = s.cur ∧
    (msgs.foldl (processMsg tpb) s).frozen = s.frozen ∧
    (msgs.foldl (processMsg tpb) s).pending = s.pending := by
  induction msgs with
  | nil => intro s h; exact ⟨rfl, rfl, rfl⟩
  | cons m ms ih =>
    intro s h
    have hnot : ¬(m.type = "note_on" ∧ m.velocity > 0) := by
      simpa [isNoteOnMsg] using h m (List.mem_cons_self m ms)
    rw [List.foldl_cons]
    have hpm : processMsg tpb s m = { s with prev := m.time } := by
      simp [processMsg, hnot]
    rw [hpm]
    exact ih { s with prev := m.time } (fun x hx => h x (List.mem_cons_of_mem m hx))

lemma foldl_segTrack_no_noteon (tpb : Int) (tracks : List (List Msg)) : ∀ p : Int,
    (∀ t ∈ tracks, ∀ m ∈ t, isNoteOnMsg m = false) →
    ∃ q : Int, tracks.foldl (segTrack tpb) ⟨p, [], [], 0⟩ = ⟨q, [], [], 0⟩ := by
  induction tracks with
  | nil => intro p h; exact ⟨p, rfl⟩
  | cons t ts ih =>
    intro p h
    obtain ⟨hc, hf, hk⟩ := foldl_processMsg_no_noteon tpb t ⟨p, [], [], 0⟩ (h t (by simp))
    have hseg : segTrack tpb ⟨p, [], [], 0⟩ t =
        ⟨(t.foldl (processMsg tpb) ⟨p, [], [], 0⟩).prev, [], [], 0⟩ := by
      simp only [segTrack, endTrack, hc, if_true, ite_true]
      cases hX : t.foldl (processMsg tpb) ⟨p, [], [], 0⟩
      simp_all
    rw [List.foldl_cons, hseg]
    exact ih _ (fun x hx => h x (by simp [hx]))

/-- Claim C10: an input with no note-on event of positive velocity (no
tracks, or only non-note events) yields exactly "Total 0 lines.\n" and
leaves the caller's lyric list unmodified. -/
theorem C10_no_notes (tracks : List (List Msg)) (lyrics : List String) (tpb : Int)
    (h : ∀ t ∈ tracks, ∀ m ∈ t, isNoteOnMsg m = false) :
    midi_to_sc_format tracks lyrics tpb = (some "Total 0 lines.\n", lyrics) := by
  obtain ⟨q, hq⟩ := foldl_segTrack_no_noteon tpb tracks 0 h
  have hbars : barsOf tpb tracks = [] := by
    simp only [barsOf, freshState]
    rw [hq]
    simp [SegState.bars]
  simp only [midi_to_sc_format, hbars]
  rw [show formatLines 0 [] lyrics = (some "", lyrics) from rfl]
  simp only [Option.map_some']
  refine congrArg₂ Prod.mk (congrArg some ?_) rfl
  decide

/-- Witness for C10_no_notes: one note-off-only track and one empty track. -/
theorem C10_no_notes_witness :
    midi_to_sc_format [[offMsg 5], []] ["x"] 480 = (some "Total 0 lines.\n", ["x"]) :=
  C10_no_notes [[offMsg 5], []] ["x"] 480 (by decide)

/-- Witness for C2_single_track at the spec's end-to-end track: 3 note-ons,
3 NoteTokens across 2 bars. -/
theorem C2_single_track_witness :
    ((barsOf 480 [[mkOn 60 0, mkOn 64 480, mkOn 67 100]]).map List.length).sum =
      countNoteOns [[mkOn 60 0, mkOn 64 480, mkOn 67 100]] :=
  C2_single_track 480 [mkOn 60 0, mkOn 64 480, mkOn 67 100] (by decide)
